import Mathlib

/-!
Shallow embedding of the book-exchange Flask application (`src/app.py`).

Users, listings and messages are records mirroring the SQLAlchemy models;
the database tables are Lean lists in insertion order (`db.session.add`
appends).  Timestamps and primary keys are naturals.  Password hashing is
an opaque external primitive, passed in as a function parameter.  Each
route handler that a claim touches is embedded as a pure function from the
relevant state and request data to the new state and an observable
response (flash notices, render vs redirect).
-/

namespace BookExchange

/-- `class User(UserMixin, db.Model)` from `app.py`. -/
structure User where
  id : Nat
  username : String
  email : String
  password_hash : String
deriving Repr, DecidableEq

/-- `class Listing(db.Model)` from `app.py`; `genre`, `description` and
`condition` are nullable columns, hence `Option`. -/
structure Listing where
  id : Nat
  title : String
  author : String
  genre : Option String
  description : Option String
  condition : Option String
  created_at : Nat
  owner_id : Nat
deriving Repr, DecidableEq

/-- `class Message(db.Model)` from `app.py`. -/
structure Message where
  id : Nat
  sender_id : Nat
  receiver_id : Nat
  listing_id : Nat
  content : String
  timestamp : Nat
deriving Repr, DecidableEq

/-- Observable outcome of the `POST /listing/<id>` branch of
`listing_detail`: either the page is rendered (with an optional flash
notice, as `(message, category)`), or the request is redirected back to a
listing page with a flash notice. -/
inductive MsgOutcome where
  | render (flash : Option (String × String))
  | redirectListing (listingId : Nat) (flash : String × String)
deriving Repr, DecidableEq

/-- The message-sending branch of `listing_detail` (app.py lines 340-356),
for an authenticated `user` viewing `listing`.  `content` is
`request.form.get('content')` (absent field = `none`); Python truthiness
makes both `None` and `""` skip the branch.  `now` is the timestamp default
and `newId` the fresh primary key for a persisted message. -/
def listingDetailPost (msgs : List Message) (user : User) (listing : Listing)
    (content : Option String) (now newId : Nat) : List Message × MsgOutcome :=
  match content with
  | none => (msgs, .render none)
  | some c =>
    if c = "" then
      (msgs, .render none)
    else if user.id = listing.owner_id then
      (msgs, .render (some ("You cannot message yourself about your own listing.", "warning")))
    else
      (msgs ++ [{ id := newId, sender_id := user.id, receiver_id := listing.owner_id,
                  listing_id := listing.id, content := c, timestamp := now }],
       .redirectListing listing.id ("Message sent.", "success"))

end BookExchange

namespace BookExchange

/-- C1: for non-empty content, sending a message on a listing produces the
self-message warning with the message store unchanged exactly when the
sender is the listing's owner. -/
theorem selfMessage_iff_sender_is_owner
    (msgs : List Message) (user : User) (listing : Listing)
    (c : String) (now newId : Nat) (hc : c ≠ "") :
    listingDetailPost msgs user listing (some c) now newId =
      (msgs, .render (some ("You cannot message yourself about your own listing.", "warning")))
      ↔ user.id = listing.owner_id := by
  constructor
  · intro h
    by_contra hne
    simp only [listingDetailPost, if_neg hc, if_neg hne] at h
    exact absurd (congrArg Prod.snd h) (by simp)
  · intro h
    simp [listingDetailPost, if_neg hc, h]

/-- Witness for C1 at a concrete sender owning a concrete listing. -/
theorem selfMessage_iff_sender_is_owner_witness :
    listingDetailPost [] ⟨1, "a", "a@x", "h"⟩ ⟨10, "T", "A", none, none, none, 0, 1⟩
        (some "hi") 5 1 =
      ([], .render (some ("You cannot message yourself about your own listing.", "warning"))) :=
  (selfMessage_iff_sender_is_owner [] ⟨1, "a", "a@x", "h"⟩
    ⟨10, "T", "A", none, none, none, 0, 1⟩ "hi" 5 1 (by decide)).mpr rfl

/-- C2: for non-empty content and a sender who is not the owner, exactly one
message is appended, with sender the user, receiver the listing's owner,
the given listing and content, and the response redirects back to the same
listing page. -/
theorem sendMessage_nonowner_persists
    (msgs : List Message) (user : User) (listing : Listing)
    (c : String) (now newId : Nat) (hc : c ≠ "") (hne : user.id ≠ listing.owner_id) :
    listingDetailPost msgs user listing (some c) now newId =
      (msgs ++ [{ id := newId, sender_id := user.id, receiver_id := listing.owner_id,
                  listing_id := listing.id, content := c, timestamp := now }],
       .redirectListing listing.id ("Message sent.", "success")) := by
  simp [listingDetailPost, if_neg hc, if_neg hne]

/-- Witness for C2 at a concrete non-owner sender. -/
theorem sendMessage_nonowner_persists_witness :
    listingDetailPost [] ⟨2, "b", "b@x", "h"⟩ ⟨10, "T", "A", none, none, none, 0, 1⟩
        (some "hi") 5 1 =
      ([⟨1, 2, 1, 10, "hi", 5⟩], .redirectListing 10 ("Message sent.", "success")) :=
  sendMessage_nonowner_persists [] ⟨2, "b", "b@x", "h"⟩
    ⟨10, "T", "A", none, none, none, 0, 1⟩ "hi" 5 1 (by decide) (by decide)

/-- C9: an authenticated POST with a missing or empty `content` field leaves
the message store unchanged, produces no flash notice, and renders the page
exactly as a GET would. -/
theorem emptyContent_post_is_noop
    (msgs : List Message) (user : User) (listing : Listing) (now newId : Nat) :
    listingDetailPost msgs user listing none now newId = (msgs, .render none) ∧
    listingDetailPost msgs user listing (some "") now newId = (msgs, .render none) := by
  exact ⟨rfl, by simp [listingDetailPost]⟩

/-- C5 counterexample: the handler only tests Python truthiness of the
content, not trimmed non-emptiness, so a message whose body is a single
space — all whitespace, hence empty after trimming — is persisted. -/
theorem whitespace_content_persisted :
    (listingDetailPost [] ⟨2, "b", "b@x", "h"⟩ ⟨10, "T", "A", none, none, none, 0, 1⟩
        (some " ") 5 1).1.map (fun m => m.content) = [" "] ∧
    " ".data.all Char.isWhitespace = true := by
  exact ⟨by decide, by decide⟩

/-- C5 amended: the handler preserves the invariant that every persisted
message has non-empty (though possibly all-whitespace) content. -/
theorem content_nonempty_invariant
    (msgs : List Message) (user : User) (listing : Listing)
    (content : Option String) (now newId : Nat)
    (h : ∀ m ∈ msgs, m.content ≠ "") :
    ∀ m ∈ (listingDetailPost msgs user listing content now newId).1, m.content ≠ "" := by
  intro m hm
  match content with
  | none => exact h m hm
  | some c =>
    by_cases hc : c = ""
    · simp only [listingDetailPost, hc, if_pos rfl] at hm
      exact h m hm
    · by_cases ho : user.id = listing.owner_id
      · simp only [listingDetailPost, if_neg hc, if_pos ho] at hm
        exact h m hm
      · simp only [listingDetailPost, if_neg hc, if_neg ho, List.mem_append,
          List.mem_singleton] at hm
        rcases hm with hm | hm
        · exact h m hm
        · subst hm; exact hc

/-- Witness for the C5 invariant at a concrete send. -/
theorem content_nonempty_invariant_witness :
    (⟨1, 2, 1, 10, "hi", 5⟩ : Message).content ≠ "" :=
  content_nonempty_invariant [] ⟨2, "b", "b@x", "h"⟩ ⟨10, "T", "A", none, none, none, 0, 1⟩
    (some "hi") 5 1 (by simp) ⟨1, 2, 1, 10, "hi", 5⟩ (by decide)

/-- Where a redirect response of the identity component points: back to the
login page, to the home page, or to a caller-supplied URL. -/
inductive RedirectTarget where
  | loginPage
  | index
  | custom (url : String)
deriving Repr, DecidableEq

/-- Observable result of the `POST /login` handler: the flash notice
`(message, category)`, the redirect target, and the session user
established by `login_user` (if any). -/
structure LoginResult where
  flash : String × String
  target : RedirectTarget
  sessionUser : Option Nat
deriving Repr, DecidableEq

/-- The `POST /login` handler (app.py lines 256-266).  `verify p h` embeds
`check_password_hash(h, p)` as an opaque primitive; `nextParam` is
`request.args.get('next')`, and `next_page or url_for('index')` treats both
a missing and an empty parameter as falsy. -/
def login (users : List User) (verify : String → String → Bool)
    (username password : String) (nextParam : Option String) : LoginResult :=
  match users.find? (fun u => u.username == username) with
  | none => ⟨("Invalid username or password.", "danger"), .loginPage, none⟩
  | some u =>
    if verify password u.password_hash then
      ⟨("Logged in successfully.", "success"),
        (match nextParam with
         | none => .index
         | some n => if n = "" then .index else .custom n),
        some u.id⟩
    else
      ⟨("Invalid username or password.", "danger"), .loginPage, none⟩

/-- C7: a login attempt with an unknown username and one with a known
username but a rejected password produce identical observable responses:
the same generic flash notice and the same redirect, with no session. -/
theorem login_failure_indistinguishable
    (users : List User) (verify : String → String → Bool)
    (u1 p1 u2 p2 : String) (n1 n2 : Option String)
    (h1 : users.find? (fun u => u.username == u1) = none)
    (h2 : ∃ usr, users.find? (fun u => u.username == u2) = some usr ∧
           verify p2 usr.password_hash = false) :
    login users verify u1 p1 n1 = login users verify u2 p2 n2 ∧
    login users verify u1 p1 n1 =
      ⟨("Invalid username or password.", "danger"), .loginPage, none⟩ := by
  obtain ⟨usr, hf, hv⟩ := h2
  constructor
  · simp [login, h1, hf, hv]
  · simp [login, h1]

/-- Witness for C7: unknown user "bob" and wrong password for "alice" give
the same response. -/
theorem login_failure_indistinguishable_witness :
    login [⟨1, "alice", "a@x", "H"⟩] (fun p h => p == "secret" && h == "H")
        "bob" "pw" none =
      login [⟨1, "alice", "a@x", "H"⟩] (fun p h => p == "secret" && h == "H")
        "alice" "wrong" none :=
  (login_failure_indistinguishable [⟨1, "alice", "a@x", "H"⟩]
    (fun p h => p == "secret" && h == "H") "bob" "pw" "alice" "wrong" none none
    rfl ⟨⟨1, "alice", "a@x", "H"⟩, rfl, rfl⟩).1

/-- C10: a successful login redirects to the caller-supplied `next` target
verbatim whenever it is non-empty, with no validation of its value; when
`next` is absent or empty the redirect goes to the home page. -/
theorem login_success_follows_next
    (users : List User) (verify : String → String → Bool)
    (uname pw : String) (usr : User) (n : String)
    (hf : users.find? (fun u => u.username == uname) = some usr)
    (hv : verify pw usr.password_hash = true) :
    (n ≠ "" →
      login users verify uname pw (some n) =
        ⟨("Logged in successfully.", "success"), .custom n, some usr.id⟩) ∧
    login users verify uname pw none =
      ⟨("Logged in successfully.", "success"), .index, some usr.id⟩ ∧
    login users verify uname pw (some "") =
      ⟨("Logged in successfully.", "success"), .index, some usr.id⟩ := by
  refine ⟨fun hn => ?_, ?_, ?_⟩ <;> simp [login, hf, hv]
  exact hn

/-- Witness for C10: an arbitrary external URL in `next` is followed
verbatim. -/
theorem login_success_follows_next_witness :
    login [⟨1, "alice", "a@x", "H"⟩] (fun p h => p == "secret" && h == "H")
        "alice" "secret" (some "http://evil.example/x") =
      ⟨("Logged in successfully.", "success"), .custom "http://evil.example/x", some 1⟩ :=
  (login_success_follows_next [⟨1, "alice", "a@x", "H"⟩]
    (fun p h => p == "secret" && h == "H") "alice" "secret" ⟨1, "alice", "a@x", "H"⟩
    "http://evil.example/x" rfl rfl).1 (by decide)

/-- Observable outcome of the `POST /register` handler, by the flash
notice category it produces. -/
inductive RegisterOutcome where
  | validationError (msg : String)
  | conflictError (msg : String)
  | success (user : User)
deriving Repr, DecidableEq

/-- The `POST /register` handler (app.py lines 212-242).  Form fields are
`Option String` (absent = `none`); Python truthiness makes `None` and `""`
fail the required-fields check.  `hashFn` embeds
`generate_password_hash`; `newId` is the fresh primary key. -/
def register (users : List User) (hashFn : String → String)
    (username email password confirm : Option String) (newId : Nat) :
    List User × RegisterOutcome :=
  match username, email, password with
  | some un, some em, some pw =>
    if un = "" ∨ em = "" ∨ pw = "" then
      (users, .validationError "All fields are required.")
    else if confirm ≠ some pw then
      (users, .validationError "Passwords do not match.")
    else if (users.find? (fun u => u.username == un)).isSome then
      (users, .conflictError "Username already taken.")
    else if (users.find? (fun u => u.email == em)).isSome then
      (users, .conflictError "Email already registered.")
    else
      (users ++ [⟨newId, un, em, hashFn pw⟩], .success ⟨newId, un, em, hashFn pw⟩)
  | _, _, _ => (users, .validationError "All fields are required.")

/-- C8 counterexample: a registration whose username is already held but
whose password confirmation mismatches fails with a ValidationError
("Passwords do not match."), not a ConflictError, so the claim's universal
statement fails as written. -/
theorem duplicate_username_not_always_conflict :
    register [⟨1, "alice", "a@x", "H"⟩] (fun s => s)
        (some "alice") (some "b@x") (some "p") (some "q") 2 =
      ([⟨1, "alice", "a@x", "H"⟩], .validationError "Passwords do not match.") := by
  decide

/-- C8 amended: a registration that passes field validation (all fields
present and non-empty, confirmation matching) and whose username or email
is already held fails with a ConflictError and leaves the user table
unchanged; and after any successful registration, re-registering the same
data fails with the username ConflictError. -/
theorem register_duplicate_conflicts :
    (∀ (users : List User) (hashFn : String → String) (un em pw : String)
       (confirm : Option String) (newId : Nat),
      un ≠ "" → em ≠ "" → pw ≠ "" → confirm = some pw →
      ((∃ u ∈ users, u.username = un) ∨ (∃ u ∈ users, u.email = em)) →
      ∃ msg, register users hashFn (some un) (some em) (some pw) confirm newId =
        (users, .conflictError msg)) ∧
    (∀ (users users' : List User) (hashFn : String → String) (un em pw : String)
       (confirm : Option String) (newId newId' : Nat) (u : User),
      register users hashFn (some un) (some em) (some pw) confirm newId =
        (users', .success u) →
      register users' hashFn (some un) (some em) (some pw) confirm newId' =
        (users', .conflictError "Username already taken.")) := by
  constructor
  · intro users hashFn un em pw confirm newId hun hem hpw hconf hdup
    have hval : ¬(un = "" ∨ em = "" ∨ pw = "") := by
      push_neg; exact ⟨hun, hem, hpw⟩
    have hcf : ¬(confirm ≠ some pw) := by simp [hconf]
    by_cases hu : (users.find? (fun u => u.username == un)).isSome
    · exact ⟨"Username already taken.", by simp [register, hval, hcf, hu]⟩
    · have he : (users.find? (fun u => u.email == em)).isSome := by
        rcases hdup with ⟨u, hu', hname⟩ | ⟨u, hu', hemail⟩
        · exact absurd (List.find?_isSome.mpr ⟨u, hu', by simp [hname]⟩) hu
        · exact List.find?_isSome.mpr ⟨u, hu', by simp [hemail]⟩
      exact ⟨"Email already registered.", by simp [register, hval, hcf, hu, he]⟩
  · intro users users' hashFn un em pw confirm newId newId' u hreg
    simp only [register] at hreg
    by_cases hval : un = "" ∨ em = "" ∨ pw = ""
    · rw [if_pos hval] at hreg
      simp at hreg
    rw [if_neg hval] at hreg
    by_cases hcf : confirm ≠ some pw
    · rw [if_pos hcf] at hreg
      simp at hreg
    rw [if_neg hcf] at hreg
    by_cases hu : (users.find? (fun v => v.username == un)).isSome
    · rw [if_pos hu] at hreg
      simp at hreg
    rw [if_neg hu] at hreg
    by_cases he : (users.find? (fun v => v.email == em)).isSome
    · rw [if_pos he] at hreg
      simp at hreg
    rw [if_neg he] at hreg
    have husers : users ++ [⟨newId, un, em, hashFn pw⟩] = users' :=
      congrArg Prod.fst hreg
    have hfind : (users'.find? (fun v => v.username == un)).isSome := by
      rw [← husers]
      exact List.find?_isSome.mpr ⟨⟨newId, un, em, hashFn pw⟩, by simp, by simp⟩
    simp [register, hval, hcf, hfind]

/-- Witness for C8: registering "a" into an empty store succeeds, and
registering the same data again conflicts on the username. -/
theorem register_duplicate_conflicts_witness :
    register [⟨1, "a", "a@x", "p"⟩] (fun s => s)
        (some "a") (some "a@x") (some "p") (some "p") 2 =
      ([⟨1, "a", "a@x", "p"⟩], .conflictError "Username already taken.") :=
  register_duplicate_conflicts.2 [] [⟨1, "a", "a@x", "p"⟩] (fun s => s)
    "a" "a@x" "p" (some "p") 1 2 ⟨1, "a", "a@x", "p"⟩ rfl

/-- Standard SQL `LIKE` wildcard matching over characters, used to embed
the `ilike` calls of the `/listings` route: `%` matches any (possibly
empty) sequence of characters and `_` matches exactly one character; any
other pattern character matches itself. -/
def likeMatch : List Char → List Char → Bool
  | [], s => s.isEmpty
  | c :: ps, s =>
    if c = '%' then s.tails.any (fun t => likeMatch ps t)
    else
      match s with
      | [] => false
      | d :: s' => (c = '_' || c == d) && likeMatch ps s'

/-- Lower-casing of a character sequence, embedding SQL `lower()` as
produced by SQLAlchemy's `ilike`. -/
def lowerChars (s : List Char) : List Char := s.map Char.toLower

/-- `column.ilike(pattern)`: case-insensitive `LIKE`, lowering both the
column value and the pattern. -/
def ilike (s : String) (pattern : List Char) : Bool :=
  likeMatch (lowerChars pattern) (lowerChars s.data)

/-- The pattern `f"%{search_query}%"` built by the `/listings` route. -/
def qPattern (q : String) : List Char := '%' :: q.data ++ ['%']

/-- The search predicate of `/listings` (app.py lines 293-299): `q`
matched with `ilike` against title, author, or genre, OR across the three;
a `NULL` genre yields SQL `NULL`, falsy inside the OR. -/
def listingMatchesQ (q : String) (l : Listing) : Bool :=
  ilike l.title (qPattern q) || ilike l.author (qPattern q) ||
    (match l.genre with
     | none => false
     | some g => ilike g (qPattern q))

/-- `if search_query:` — the `q` filter applies only when the parameter is
non-empty (Python truthiness). -/
def applyQ (q : String) (ls : List Listing) : List Listing :=
  if q = "" then ls else ls.filter (listingMatchesQ q)

/-- `if genre_filter:` — exact genre equality; `NULL` genres never match. -/
def applyGenre (genre : String) (ls : List Listing) : List Listing :=
  if genre = "" then ls else ls.filter (fun l => l.genre == some genre)

/-- `if condition_filter:` — exact condition equality. -/
def applyCondition (condition : String) (ls : List Listing) : List Listing :=
  if condition = "" then ls else ls.filter (fun l => l.condition == some condition)

/-- The conjunction of the three provided filters, as one predicate. -/
def listingMatchesFilter (q genre condition : String) (l : Listing) : Bool :=
  (decide (q = "") || listingMatchesQ q l) &&
  (decide (genre = "") || l.genre == some genre) &&
  (decide (condition = "") || l.condition == some condition)

/-- The `/listings` route (app.py lines 287-305): apply the three optional
filters in sequence, then order by creation time, newest first. -/
def listListings (ls : List Listing) (q genre condition : String) : List Listing :=
  (applyCondition condition (applyGenre genre (applyQ q ls))).mergeSort
    (fun a b => b.created_at ≤ a.created_at)

/-- The three sequentially applied filters equal one filter by the
conjoined predicate. -/
theorem filters_eq_filter (ls : List Listing) (q genre condition : String) :
    applyCondition condition (applyGenre genre (applyQ q ls)) =
      ls.filter (listingMatchesFilter q genre condition) := by
  rw [show listingMatchesFilter q genre condition = fun l =>
      (decide (q = "") || listingMatchesQ q l) &&
      (decide (genre = "") || l.genre == some genre) &&
      (decide (condition = "") || l.condition == some condition) from rfl]
  by_cases hq : q = "" <;> by_cases hg : genre = "" <;> by_cases hc : condition = "" <;>
    simp [applyQ, applyGenre, applyCondition, hq, hg, hc,
      List.filter_filter, Bool.and_assoc, Bool.and_comm, Bool.and_left_comm]

/-- A character-list prefix check, used to formalize the claim's phrase
"occurs as a substring". -/
def prefixOfChars : List Char → List Char → Bool
  | [], _ => true
  | _ :: _, [] => false
  | a :: as, b :: bs => a == b && prefixOfChars as bs

/-- Substring occurrence over character lists: the claim's notion of "q
occurs as a substring", for comparison against the code's LIKE match. -/
def occursIn : List Char → List Char → Bool
  | needle, [] => prefixOfChars needle []
  | needle, h :: t => prefixOfChars needle (h :: t) || occursIn needle t

/-- C6 counterexample: the query string is interpolated into the LIKE
pattern unescaped, so its `_` acts as a single-character wildcard.  The
query "a_b" returns the listing titled "axb" even though "a_b" does not
occur case-insensitively as a substring of its title, author, or genre. -/
theorem like_wildcard_not_substring :
    listListings [⟨1, "axb", "y", none, none, none, 0, 1⟩] "a_b" "" "" =
      [⟨1, "axb", "y", none, none, none, 0, 1⟩] ∧
    occursIn (lowerChars "a_b".data) (lowerChars "axb".data) = false ∧
    occursIn (lowerChars "a_b".data) (lowerChars "y".data) = false := by
  refine ⟨?_, by decide, by decide⟩
  have hfilt : List.filter (listingMatchesQ "a_b")
      [⟨1, "axb", "y", none, none, none, 0, 1⟩] =
      [⟨1, "axb", "y", none, none, none, 0, 1⟩] := by decide
  simp [listListings, applyCondition, applyGenre, applyQ, hfilt]

/-- C6 amended: `listListings` returns exactly the listings that pass all
provided filters, where a non-empty `q` must match case-insensitively as a
SQL LIKE pattern `%q%` (so `%`/`_` in the query act as wildcards, not
literals) against title, author, or genre (OR across fields), non-empty
`genre`/`condition` must match exactly, filters compose by AND, results are
ordered by creation time descending, and the result is unchanged under
changing the case of `q`. -/
theorem listListings_spec (ls : List Listing) (q genre condition : String) :
    (∀ l, l ∈ listListings ls q genre condition ↔
       l ∈ ls ∧ (q ≠ "" → listingMatchesQ q l = true) ∧
       (genre ≠ "" → l.genre = some genre) ∧
       (condition ≠ "" → l.condition = some condition)) ∧
    (listListings ls q genre condition).Pairwise
      (fun a b => b.created_at ≤ a.created_at) ∧
    List.Perm (listListings ls q genre condition)
      (ls.filter (listingMatchesFilter q genre condition)) ∧
    (∀ q' : String, lowerChars q.data = lowerChars q'.data →
       listListings ls q genre condition = listListings ls q' genre condition) := by
  refine ⟨fun l => ?_, ?_, ?_, fun q' hq' => ?_⟩
  · rw [listListings]
    simp only [List.mem_mergeSort, filters_eq_filter, List.mem_filter, listingMatchesFilter,
      Bool.and_eq_true, Bool.or_eq_true, decide_eq_true_eq, beq_iff_eq]
    tauto
  · exact (@List.sorted_mergeSort _
      (fun a b : Listing => decide (b.created_at ≤ a.created_at))
      (fun a b c hab hbc => by
        simp only [decide_eq_true_eq] at *
        omega)
      (fun a b => by
        simp only [Bool.or_eq_true, decide_eq_true_eq]
        omega)
      (applyCondition condition (applyGenre genre (applyQ q ls)))).imp
      (by simp only [decide_eq_true_eq]; exact fun h => h)
  · rw [listListings, filters_eq_filter]
    exact List.mergeSort_perm _ _
  · have hqe : q = "" ↔ q' = "" := by
      rw [String.ext_iff, String.ext_iff]
      constructor
      · intro h
        have := hq'
        rw [h] at this
        simpa [lowerChars, List.map_eq_nil_iff] using this.symm
      · intro h
        have := hq'
        rw [h] at this
        simpa [lowerChars, List.map_eq_nil_iff] using this
    have hmq : ∀ l, listingMatchesQ q l = listingMatchesQ q' l := by
      have hpat : lowerChars (qPattern q) = lowerChars (qPattern q') := by
        simp only [qPattern, lowerChars, List.map_cons, List.map_append]
        simp only [lowerChars] at hq'
        rw [hq']
      intro l
      simp [listingMatchesQ, ilike, hpat]
    have happ : applyQ q ls = applyQ q' ls := by
      by_cases hq0 : q = ""
      · rw [applyQ, applyQ, if_pos hq0, if_pos (hqe.mp hq0)]
      · rw [applyQ, applyQ, if_neg hq0, if_neg (fun h => hq0 (hqe.mpr h)),
          List.filter_congr (fun l _ => hmq l)]
    rw [listListings, listListings, happ]

/-- Witness for C6: the search is insensitive to the case of the query. -/
theorem listListings_spec_witness :
    listListings [⟨1, "The Hobbit", "J. R. R. Tolkien", none, none, none, 0, 1⟩]
        "TOLKIEN" "" "" =
      listListings [⟨1, "The Hobbit", "J. R. R. Tolkien", none, none, none, 0, 1⟩]
        "tolkien" "" "" :=
  (listListings_spec [⟨1, "The Hobbit", "J. R. R. Tolkien", none, none, none, 0, 1⟩]
    "TOLKIEN" "" "").2.2.2 "tolkien" (by decide)

/-- The per-listing conversation query of `listing_detail` (app.py lines
330-337): messages of the listing exchanged between users `userA` and
`userB` in either direction, ordered by timestamp ascending.  In the
source `userA` is the current user and `userB` the listing's owner. -/
def conversation (msgs : List Message) (listingId userA userB : Nat) : List Message :=
  (msgs.filter (fun m => m.listing_id == listingId &&
      ((m.sender_id == userA && m.receiver_id == userB) ||
       (m.sender_id == userB && m.receiver_id == userA)))).mergeSort
    (fun a b => a.timestamp ≤ b.timestamp)

/-- C4: `conversation` returns exactly the messages of the listing whose
{sender, receiver} set is {A, B} — as a multiset (a permutation of the
filtered store) and element-wise — in non-decreasing timestamp order, and
the empty sequence when no such message exists. -/
theorem conversation_spec (msgs : List Message) (L A B : Nat) :
    (∀ m, m ∈ conversation msgs L A B ↔
       m ∈ msgs ∧ m.listing_id = L ∧
       ({m.sender_id, m.receiver_id} : Set Nat) = {A, B}) ∧
    (conversation msgs L A B).Pairwise (fun a b => a.timestamp ≤ b.timestamp) ∧
    List.Perm (conversation msgs L A B)
      (msgs.filter (fun m => m.listing_id == L &&
        ((m.sender_id == A && m.receiver_id == B) ||
         (m.sender_id == B && m.receiver_id == A)))) ∧
    ((∀ m ∈ msgs, ¬(m.listing_id = L ∧
        ({m.sender_id, m.receiver_id} : Set Nat) = {A, B})) →
      conversation msgs L A B = []) := by
  have hmem : ∀ m : Message, m ∈ conversation msgs L A B ↔
      m ∈ msgs ∧ m.listing_id = L ∧
      ({m.sender_id, m.receiver_id} : Set Nat) = {A, B} := by
    intro m
    simp [conversation, Set.pair_eq_pair_iff, and_assoc]
  refine ⟨hmem, ?_, ?_, ?_⟩
  · have h := @List.sorted_mergeSort _
      (fun a b : Message => decide (a.timestamp ≤ b.timestamp))
      (fun a b c hab hbc => by
        simp only [decide_eq_true_eq] at *
        omega)
      (fun a b => by
        simp only [Bool.or_eq_true, decide_eq_true_eq]
        exact Nat.le_total _ _)
      (msgs.filter (fun m => m.listing_id == L &&
        ((m.sender_id == A && m.receiver_id == B) ||
         (m.sender_id == B && m.receiver_id == A))))
    exact h.imp (by simp only [decide_eq_true_eq]; exact fun h => h)
  · exact List.mergeSort_perm _ _
  · intro hnone
    have : msgs.filter (fun m => m.listing_id == L &&
        ((m.sender_id == A && m.receiver_id == B) ||
         (m.sender_id == B && m.receiver_id == A))) = [] := by
      rw [List.filter_eq_nil_iff]
      intro m hm
      have := hnone m hm
      simp only [Set.pair_eq_pair_iff] at this
      simp only [Bool.and_eq_true, Bool.or_eq_true, beq_iff_eq, not_and, not_or]
      tauto
    simp [conversation, this]

/-- Witness for C4: a concrete message between users 2 and 3 on listing 10
belongs to their conversation. -/
theorem conversation_spec_witness :
    (⟨1, 2, 3, 10, "hi", 5⟩ : Message) ∈ conversation [⟨1, 2, 3, 10, "hi", 5⟩] 10 2 3 :=
  ((conversation_spec [⟨1, 2, 3, 10, "hi", 5⟩] 10 2 3).1 ⟨1, 2, 3, 10, "hi", 5⟩).mpr
    ⟨List.mem_singleton.mpr rfl, rfl, rfl⟩

/-- `partner_id = msg.receiver_id if msg.sender_id == current_user.id else
msg.sender_id` (app.py line 414). -/
def partnerOf (uid : Nat) (m : Message) : Nat :=
  if m.sender_id = uid then m.receiver_id else m.sender_id

/-- The conversation grouping key `(msg.listing_id, partner_id)` of the
`/messages` overview. -/
def convKey (uid : Nat) (m : Message) : Nat × Nat := (m.listing_id, partnerOf uid m)

/-- Python dict assignment `conversations[key] = msg` when the key is
present: replace the value in place, keeping insertion order. -/
def setAssoc (key : Nat × Nat) (m : Message) :
    List ((Nat × Nat) × Message) → List ((Nat × Nat) × Message)
  | [] => [(key, m)]
  | e :: rest => if e.1 = key then (key, m) :: rest else e :: setAssoc key m rest

/-- One iteration of the grouping loop of `messages_overview` (app.py
lines 413-417): insert the message under its key when the key is new, and
otherwise replace the stored message only on a strictly greater timestamp. -/
def convStep (uid : Nat) (acc : List ((Nat × Nat) × Message)) (m : Message) :
    List ((Nat × Nat) × Message) :=
  match acc.lookup (convKey uid m) with
  | none => acc ++ [(convKey uid m, m)]
  | some prev =>
    if prev.timestamp < m.timestamp then setAssoc (convKey uid m) m acc else acc

/-- The `/messages` overview (app.py lines 407-418): scan the messages
involving the user in retrieval order and keep, per `(listing_id,
partner_id)` key, the stored message per `convStep`.  The Python dict is
embedded as an association list in insertion order. -/
def conversationsForUser (uid : Nat) (msgs : List Message) :
    List ((Nat × Nat) × Message) :=
  (msgs.filter (fun m => m.sender_id == uid || m.receiver_id == uid)).foldl (convStep uid) []

/-- Specification-side fold: keep the message with the strictly greater
timestamp, keeping the earlier one on ties. -/
def pickLatest (acc : Option Message) (m : Message) : Option Message :=
  match acc with
  | none => some m
  | some prev => if prev.timestamp < m.timestamp then some m else some prev

theorem lookup_cons_eq (a k : Nat × Nat) (b : Message) (es : List ((Nat × Nat) × Message)) :
    ((k, b) :: es).lookup a = if a = k then some b else es.lookup a := by
  rw [List.lookup_cons]
  by_cases h : a = k
  · simp [h]
  · simp [beq_eq_false_iff_ne.mpr h, h]

theorem lookup_append_pairs (a : Nat × Nat) (l1 l2 : List ((Nat × Nat) × Message)) :
    (l1 ++ l2).lookup a = (l1.lookup a).or (l2.lookup a) := by
  induction l1 with
  | nil => simp
  | cons e rest ih =>
    obtain ⟨k, b⟩ := e
    by_cases h : a = k <;> simp [lookup_cons_eq, h, ih]

theorem lookup_setAssoc_self (key : Nat × Nat) (m : Message)
    (l : List ((Nat × Nat) × Message)) :
    (setAssoc key m l).lookup key = some m := by
  induction l with
  | nil => simp [setAssoc, lookup_cons_eq]
  | cons e rest ih =>
    obtain ⟨k, b⟩ := e
    by_cases h : k = key
    · simp [setAssoc, h, lookup_cons_eq]
    · rw [setAssoc, if_neg (by simpa using h), lookup_cons_eq,
        if_neg (fun hh => h hh.symm)]
      exact ih

theorem lookup_setAssoc_ne (key key' : Nat × Nat) (m : Message)
    (l : List ((Nat × Nat) × Message)) (h : key' ≠ key) :
    (setAssoc key m l).lookup key' = l.lookup key' := by
  induction l with
  | nil => simp [setAssoc, lookup_cons_eq, h]
  | cons e rest ih =>
    obtain ⟨k, b⟩ := e
    by_cases hk : k = key
    · subst hk
      rw [setAssoc, if_pos rfl, lookup_cons_eq, lookup_cons_eq, if_neg h, if_neg h]
    · rw [setAssoc, if_neg (by simpa using hk), lookup_cons_eq, lookup_cons_eq]
      by_cases h2 : key' = k
      · rw [if_pos h2, if_pos h2]
      · rw [if_neg h2, if_neg h2]
        exact ih

theorem convStep_lookup (uid : Nat) (key : Nat × Nat)
    (acc : List ((Nat × Nat) × Message)) (m : Message) :
    (convStep uid acc m).lookup key =
      if convKey uid m = key then pickLatest (acc.lookup key) m
      else acc.lookup key := by
  by_cases hk : convKey uid m = key
  · rw [if_pos hk, ← hk]
    cases hl : acc.lookup (convKey uid m) with
    | none =>
      simp only [convStep, hl, lookup_append_pairs, lookup_cons_eq, List.lookup_nil,
        if_pos rfl, pickLatest]
      rfl
    | some prev =>
      by_cases ht : prev.timestamp < m.timestamp
      · simp only [convStep, hl, if_pos ht, pickLatest, lookup_setAssoc_self]
      · simp only [convStep, hl, if_neg ht, pickLatest, hl]
  · rw [if_neg hk]
    cases hl : acc.lookup (convKey uid m) with
    | none =>
      simp only [convStep, hl, lookup_append_pairs, lookup_cons_eq, List.lookup_nil,
        if_neg (Ne.symm hk), Option.or_none]
    | some prev =>
      by_cases ht : prev.timestamp < m.timestamp
      · simp only [convStep, hl, if_pos ht,
          lookup_setAssoc_ne _ _ _ _ (Ne.symm hk)]
      · simp only [convStep, hl, if_neg ht]

theorem foldl_convStep_lookup (uid : Nat) (l : List Message)
    (acc : List ((Nat × Nat) × Message)) (key : Nat × Nat) :
    ((l.foldl (convStep uid) acc).lookup key) =
      (l.filter (fun m => convKey uid m = key)).foldl pickLatest (acc.lookup key) := by
  induction l generalizing acc with
  | nil => rfl
  | cons m rest ih =>
    rw [List.foldl_cons, ih]
    by_cases hk : convKey uid m = key
    · rw [List.filter_cons_of_pos (by simpa using hk), List.foldl_cons,
        convStep_lookup, if_pos hk]
    · rw [List.filter_cons_of_neg (by simpa using hk), convStep_lookup, if_neg hk]

theorem lookup_none_iff_keys (key : Nat × Nat) (l : List ((Nat × Nat) × Message)) :
    l.lookup key = none ↔ key ∉ l.map Prod.fst := by
  induction l with
  | nil => simp
  | cons e rest ih =>
    obtain ⟨k, b⟩ := e
    by_cases h : key = k <;> simp [lookup_cons_eq, h, ih]

theorem keys_setAssoc (key : Nat × Nat) (m : Message)
    (l : List ((Nat × Nat) × Message)) (h : l.lookup key ≠ none) :
    (setAssoc key m l).map Prod.fst = l.map Prod.fst := by
  induction l with
  | nil => simp at h
  | cons e rest ih =>
    obtain ⟨k, b⟩ := e
    by_cases hk : k = key
    · simp [setAssoc, hk]
    · rw [lookup_cons_eq, if_neg (fun hh => hk hh.symm)] at h
      rw [setAssoc, if_neg (by simpa using hk)]
      simp [ih h]

theorem nodup_keys_convStep (uid : Nat) (acc : List ((Nat × Nat) × Message))
    (m : Message) (h : (acc.map Prod.fst).Nodup) :
    ((convStep uid acc m).map Prod.fst).Nodup := by
  cases hl : acc.lookup (convKey uid m) with
  | none =>
    have hk : convKey uid m ∉ acc.map Prod.fst := (lookup_none_iff_keys _ _).mp hl
    simp only [convStep, hl, List.map_append, List.map_cons, List.map_nil]
    refine List.Nodup.append h (List.nodup_singleton _) ?_
    intro x hx hy
    simp only [List.mem_singleton] at hy
    subst hy
    exact hk hx
  | some prev =>
    by_cases ht : prev.timestamp < m.timestamp
    · rw [convStep, hl]
      simp only [if_pos ht]
      rw [keys_setAssoc _ _ _ (by simp [hl])]
      exact h
    · rw [convStep, hl]
      simp only [if_neg ht]
      exact h

theorem nodup_keys_foldl (uid : Nat) (l : List Message)
    (acc : List ((Nat × Nat) × Message)) (h : (acc.map Prod.fst).Nodup) :
    (((l.foldl (convStep uid) acc)).map Prod.fst).Nodup := by
  induction l generalizing acc with
  | nil => exact h
  | cons m rest ih => exact ih _ (nodup_keys_convStep uid acc m h)

theorem pickLatest_foldl_some (l : List Message) (p m : Message) :
    l.foldl pickLatest (some p) = some m ↔
      (m = p ∧ ∀ x ∈ l, x.timestamp ≤ p.timestamp) ∨
      (∃ l₁ l₂, l = l₁ ++ m :: l₂ ∧ p.timestamp < m.timestamp ∧
        (∀ x ∈ l₁, x.timestamp < m.timestamp) ∧
        (∀ x ∈ l₂, x.timestamp ≤ m.timestamp)) := by
  induction l generalizing p with
  | nil =>
    simp only [List.foldl_nil, Option.some.injEq]
    constructor
    · intro h
      exact Or.inl ⟨h.symm, by simp⟩
    · rintro (⟨h, _⟩ | ⟨l₁, l₂, h, _⟩)
      · exact h.symm
      · exact absurd h (by simp)
  | cons x rest ih =>
    rw [List.foldl_cons]
    by_cases hx : p.timestamp < x.timestamp
    · rw [show pickLatest (some p) x = some x from by simp [pickLatest, hx], ih]
      constructor
      · rintro (⟨hm, hall⟩ | ⟨l₁, l₂, heq, hlt, h1, h2⟩)
        · subst hm
          exact Or.inr ⟨[], rest, rfl, hx, by simp, hall⟩
        · refine Or.inr ⟨x :: l₁, l₂, by rw [heq, List.cons_append], Nat.lt_trans hx hlt, ?_, h2⟩
          intro y hy
          rcases List.mem_cons.mp hy with rfl | hy
          · exact hlt
          · exact h1 y hy
      · rintro (⟨hm, hall⟩ | ⟨l₁, l₂, heq, hlt, h1, h2⟩)
        · exact absurd (hall x (List.mem_cons_self x rest)) (by omega)
        · rcases l₁ with _ | ⟨y, l₁'⟩
          · simp only [List.nil_append] at heq
            injection heq with hxm hrest
            subst hxm
            subst hrest
            exact Or.inl ⟨rfl, h2⟩
          · rw [List.cons_append] at heq
            injection heq with hyx hrest
            subst hyx
            refine Or.inr ⟨l₁', l₂, hrest, h1 x (List.mem_cons_self x l₁'), ?_, h2⟩
            intro y hy
            exact h1 y (List.mem_cons_of_mem x hy)
    · rw [show pickLatest (some p) x = some p from by simp [pickLatest, hx], ih]
      constructor
      · rintro (⟨hm, hall⟩ | ⟨l₁, l₂, heq, hlt, h1, h2⟩)
        · refine Or.inl ⟨hm, ?_⟩
          intro y hy
          rcases List.mem_cons.mp hy with rfl | hy
          · omega
          · exact hall y hy
        · refine Or.inr ⟨x :: l₁, l₂, by rw [heq, List.cons_append], hlt, ?_, h2⟩
          intro y hy
          rcases List.mem_cons.mp hy with rfl | hy
          · omega
          · exact h1 y hy
      · rintro (⟨hm, hall⟩ | ⟨l₁, l₂, heq, hlt, h1, h2⟩)
        · exact Or.inl ⟨hm, fun y hy => hall y (List.mem_cons_of_mem x hy)⟩
        · rcases l₁ with _ | ⟨y, l₁'⟩
          · simp only [List.nil_append] at heq
            injection heq with hxm hrest
            subst hxm
            exact absurd hlt hx
          · rw [List.cons_append] at heq
            injection heq with hyx hrest
            subst hyx
            exact Or.inr ⟨l₁', l₂, hrest, hlt, fun y hy => h1 y (List.mem_cons_of_mem x hy), h2⟩

theorem pickLatest_foldl_none (l : List Message) (m : Message) :
    l.foldl pickLatest none = some m ↔
      ∃ l₁ l₂, l = l₁ ++ m :: l₂ ∧
        (∀ x ∈ l₁, x.timestamp < m.timestamp) ∧
        (∀ x ∈ l₂, x.timestamp ≤ m.timestamp) := by
  cases l with
  | nil =>
    simp only [List.foldl_nil]
    constructor
    · intro h
      exact absurd h (by simp)
    · rintro ⟨l₁, l₂, h, _⟩
      exact absurd h (by simp)
  | cons x rest =>
    rw [List.foldl_cons, show pickLatest none x = some x from rfl, pickLatest_foldl_some]
    constructor
    · rintro (⟨hm, hall⟩ | ⟨l₁, l₂, heq, hlt, h1, h2⟩)
      · subst hm
        exact ⟨[], rest, rfl, by simp, hall⟩
      · refine ⟨x :: l₁, l₂, by rw [heq, List.cons_append], ?_, h2⟩
        intro y hy
        rcases List.mem_cons.mp hy with rfl | hy
        · exact hlt
        · exact h1 y hy
    · rintro ⟨l₁, l₂, heq, h1, h2⟩
      rcases l₁ with _ | ⟨y, l₁'⟩
      · simp only [List.nil_append] at heq
        injection heq with hxm hrest
        subst hxm
        subst hrest
        exact Or.inl ⟨rfl, h2⟩
      · rw [List.cons_append] at heq
        injection heq with hyx hrest
        subst hyx
        exact Or.inr ⟨l₁', l₂, hrest, h1 x (List.mem_cons_self x l₁'),
          fun y hy => h1 y (List.mem_cons_of_mem x hy), h2⟩

theorem pickLatest_foldl_eq_none (l : List Message) :
    l.foldl pickLatest none = none ↔ l = [] := by
  cases l with
  | nil => simp
  | cons x rest =>
    rw [List.foldl_cons, show pickLatest none x = some x from rfl]
    constructor
    · intro h
      exfalso
      induction rest generalizing x with
      | nil => simp at h
      | cons y t ih =>
        rw [List.foldl_cons] at h
        by_cases hxy : x.timestamp < y.timestamp
        · exact ih y (by rwa [show pickLatest (some x) y = some y from by simp [pickLatest, hxy]] at h)
        · exact ih x (by rwa [show pickLatest (some x) y = some x from by simp [pickLatest, hxy]] at h)
    · intro h
      exact absurd h (by simp)

/-- C3 amended: `conversationsForUser` has exactly one entry per distinct
(listing, partner) key among the messages touching the user (no duplicate
keys; a key is present iff some relevant message has it), and the entry of
a key is the message that decomposes its scan-order history as `earlier ++
it :: later` with everything earlier strictly older and everything later
no newer — i.e. the FIRST message of maximal timestamp in scan order, not
the last. -/
theorem conversationsForUser_spec (uid : Nat) (msgs : List Message) :
    ((conversationsForUser uid msgs).map Prod.fst).Nodup ∧
    (∀ key : Nat × Nat,
      ((conversationsForUser uid msgs).lookup key = none ↔
        ((msgs.filter (fun m => m.sender_id == uid || m.receiver_id == uid)).filter
          (fun m => convKey uid m = key)) = []) ∧
      (∀ m : Message,
        (conversationsForUser uid msgs).lookup key = some m ↔
          ∃ l₁ l₂,
            ((msgs.filter (fun m' => m'.sender_id == uid || m'.receiver_id == uid)).filter
              (fun m' => convKey uid m' = key)) = l₁ ++ m :: l₂ ∧
            (∀ x ∈ l₁, x.timestamp < m.timestamp) ∧
            (∀ x ∈ l₂, x.timestamp ≤ m.timestamp))) := by
  refine ⟨nodup_keys_foldl uid _ [] (by simp), fun key => ⟨?_, fun m => ?_⟩⟩
  · rw [conversationsForUser, foldl_convStep_lookup, List.lookup_nil]
    exact pickLatest_foldl_eq_none _
  · rw [conversationsForUser, foldl_convStep_lookup, List.lookup_nil]
    exact pickLatest_foldl_none _ m

/-- C3 counterexample: two distinct messages of the same key with equal
timestamps; the overview keeps the first encountered in scan order, not
the last, because replacement requires a strictly greater timestamp. -/
theorem tie_keeps_first_message :
    (conversationsForUser 1 [⟨1, 2, 1, 10, "a", 5⟩, ⟨2, 2, 1, 10, "b", 5⟩]).lookup (10, 2) =
      some ⟨1, 2, 1, 10, "a", 5⟩ ∧
    (⟨1, 2, 1, 10, "a", 5⟩ : Message) ≠ ⟨2, 2, 1, 10, "b", 5⟩ := by
  exact ⟨by decide, by decide⟩

/-- Witness for C3 at a one-message store. -/
theorem conversationsForUser_spec_witness :
    (conversationsForUser 1 [⟨1, 2, 1, 10, "a", 5⟩]).lookup (10, 2) =
      some ⟨1, 2, 1, 10, "a", 5⟩ :=
  (((conversationsForUser_spec 1 [⟨1, 2, 1, 10, "a", 5⟩]).2 (10, 2)).2
      ⟨1, 2, 1, 10, "a", 5⟩).mpr
    ⟨[], [], by decide, by simp, by simp⟩

end BookExchange
